import Mathlib

/-!
Verification of the Prolog query service (`src/main.rs`) against its
specification.

The service is a warp HTTP gateway around the scryer-prolog engine.  The
parts relevant to the claims are shallowly embedded here:

* `Json` models `serde_json::Value`.  JSON objects built by the `json!`
  macro and by collecting into a `BTreeMap` keep their entries in
  ascending key order (serde_json's default `Map` is a `BTreeMap`), so
  object construction goes through `mkObj`, which models that collection.
  Float payloads are carried opaquely through the codec (the codec only
  passes them to `json!` unchanged); their bit-level JSON rendering is
  outside this model.
* `Term` models `scryer_prolog::Term` as matched by `term_to_json`
  (main.rs lines 147-162): the eight recognized variants plus `other`,
  which stands for any unrecognized/future variant and carries the
  `format!("{:?}", term)` debug rendering that the catch-all arm turns
  into a JSON string.
* `LeafAnswer`/`Outcome` model one element of the query iterator,
  i.e. `Result<LeafAnswer, Error>`; `Outcome.err` carries the
  `format!("{:?}", e)` rendering of the engine error.  The engine itself
  is opaque, so `run_query` is parameterized by the outcome sequence the
  engine yields for a program/query pair.
* `handle_query` (main.rs lines 80-111) is split into the permit-event
  footprint of a request (for the semaphore claims) and the reply
  computation on the result of the spawned blocking task.
-/

/-- Model of `serde_json::Value`.  `obj` holds its fields in the order the
`BTreeMap`-backed `serde_json::Map` iterates them, i.e. ascending key
order; all object construction in the embedded code goes through `mkObj`
which establishes that order. -/
inductive Json where
  | str : String → Json
  | num : Float → Json
  | bool : Bool → Json
  | arr : List Json → Json
  | obj : List (String × Json) → Json
deriving Repr

/-- One insertion into a key-sorted association list, as `BTreeMap::insert`
behaves: an equal key replaces the stored value, otherwise the entry goes
to its sorted position. -/
def insertSorted (kv : String × Json) : List (String × Json) → List (String × Json)
  | [] => [kv]
  | x :: xs =>
    if kv.1 < x.1 then kv :: x :: xs
    else if kv.1 = x.1 then kv :: xs
    else x :: insertSorted kv xs

/-- Collecting a sequence of key/value pairs into a
`BTreeMap<String, serde_json::Value>` (as `.collect()` in
`convert_bindings_to_json` and the `json!` object macro do), then reading
the map back out in its iteration order. -/
def btreeCollect (kvs : List (String × Json)) : List (String × Json) :=
  kvs.foldl (fun acc kv => insertSorted kv acc) []

/-- A JSON object as produced by the `json!` macro: the written fields,
collected into the `BTreeMap`-backed map. -/
def mkObj (kvs : List (String × Json)) : Json :=
  Json.obj (btreeCollect kvs)

/-- Model of `scryer_prolog::Term` as consumed by `term_to_json`.
`integer` carries an arbitrary-precision integer, `rational` an
arbitrary-precision rational (their `to_string()` renderings are `toString`
of `Int` resp. `Rat`), `float` an opaque double payload.  `other` stands
for any variant not named in the match (the `_` arm) and carries the
`format!("{:?}", term)` rendering of that term. -/
inductive Term where
  | integer : Int → Term
  | rational : Rat → Term
  | float : Float → Term
  | atom : String → Term
  | string : String → Term
  | list : List Term → Term
  | compound : String → List Term → Term
  | var : String → Term
  | other : String → Term

mutual

/-- Embedding of `term_to_json` (main.rs lines 147-162). -/
def term_to_json : Term → Json
  | .integer i => Json.str (toString i)
  | .rational r => Json.str (toString r)
  | .float f => Json.num f
  | .atom a => Json.str a
  | .string s => Json.str s
  | .list items => Json.arr (termsToJson items)
  | .compound name args =>
      mkObj [("functor", Json.str name), ("args", Json.arr (termsToJson args))]
  | .var v => mkObj [("var", Json.str v)]
  | .other dbg => Json.str dbg

/-- The `items.iter().map(term_to_json).collect()` sub-expression of the
codec, unfolded to structural recursion. -/
def termsToJson : List Term → List Json
  | [] => []
  | t :: ts => term_to_json t :: termsToJson ts

end

/-- The list helper of the codec agrees with `List.map term_to_json`. -/
theorem termsToJson_eq_map (ts : List Term) : termsToJson ts = ts.map term_to_json := by
  induction ts with
  | nil => rfl
  | cons t ts ih => simp [termsToJson, ih]

/-- Embedding of `convert_bindings_to_json` (main.rs lines 139-145): the
bindings `BTreeMap<String, Term>` is modeled as the association list it
iterates as (strictly ascending keys); each value is encoded with the
codec and the pairs are collected into a fresh
`BTreeMap<String, serde_json::Value>` that `json!` turns into an object. -/
def convert_bindings_to_json (bindings : List (String × Term)) : Json :=
  Json.obj (btreeCollect (bindings.map (fun kv => (kv.1, term_to_json kv.2))))

/-- Inserting a key strictly greater than every key of a sorted
accumulator appends it at the end. -/
theorem insertSorted_append (kv : String × Json) (acc : List (String × Json))
    (h : ∀ x ∈ acc, x.1 < kv.1) : insertSorted kv acc = acc ++ [kv] := by
  induction acc with
  | nil => rfl
  | cons x xs ih =>
    have hx : x.1 < kv.1 := h x (List.mem_cons_self x xs)
    have h1 : ¬ kv.1 < x.1 := not_lt_of_gt hx
    have h2 : ¬ kv.1 = x.1 := by
      intro he
      exact absurd hx (by simp [he])
    simp only [insertSorted, if_neg h1, if_neg h2, List.cons_append]
    exact congrArg (x :: ·) (ih (fun y hy => h y (List.mem_cons_of_mem x hy)))

/-- Collecting a list whose keys are strictly ascending and greater than
every key already in the accumulator just appends the list. -/
theorem btreeCollect_loop_sorted (kvs acc : List (String × Json))
    (hacc : ∀ x ∈ acc, ∀ y ∈ kvs, x.1 < y.1)
    (hkvs : kvs.Pairwise (fun a b => a.1 < b.1)) :
    kvs.foldl (fun a kv => insertSorted kv a) acc = acc ++ kvs := by
  induction kvs generalizing acc with
  | nil => simp
  | cons y ys ih =>
    rw [List.foldl_cons]
    rw [insertSorted_append y acc (fun x hx => hacc x hx y (List.mem_cons_self y ys))]
    rw [ih (acc ++ [y])]
    · simp
    · intro x hx z hz
      rcases List.mem_append.mp hx with hxa | hxy
      · exact hacc x hxa z (List.mem_cons_of_mem y hz)
      · have hxey : x = y := List.mem_singleton.mp hxy
        subst hxey
        exact (List.pairwise_cons.mp hkvs).1 z hz
    · exact (List.pairwise_cons.mp hkvs).2

/-- Collecting an association list with strictly ascending keys into a
`BTreeMap` is the identity on the entry sequence. -/
theorem btreeCollect_sorted (kvs : List (String × Json))
    (h : kvs.Pairwise (fun a b => a.1 < b.1)) : btreeCollect kvs = kvs := by
  have := btreeCollect_loop_sorted kvs [] (by simp) h
  simpa [btreeCollect] using this

/-- Model of `scryer_prolog::LeafAnswer` as matched in `run_query`
(main.rs lines 124-131).  The `LeafAnswer::LeafAnswer { bindings, .. }`
variant is matched only for its `bindings` field; the other fields are
discarded by the `..` pattern and are not modeled. -/
inductive LeafAnswer where
  | isTrue
  | isFalse
  | exception : Term → LeafAnswer
  | answer : List (String × Term) → LeafAnswer

/-- One element of the query iterator, i.e. `Result<LeafAnswer, Error>`;
`err` carries the `format!("{:?}", e)` rendering of the engine error. -/
inductive Outcome where
  | ok : LeafAnswer → Outcome
  | err : String → Outcome

/-- The body of the `for answer in query_iter` match (main.rs lines
123-133): the one response entry pushed for each outcome. -/
def outcomeToEntry : Outcome → Json
  | .ok .isTrue => mkObj [("result", Json.bool true)]
  | .ok .isFalse => mkObj [("result", Json.bool false)]
  | .ok (.exception t) => mkObj [("exception", term_to_json t)]
  | .ok (.answer bindings) => convert_bindings_to_json bindings
  | .err e => mkObj [("error", Json.str e)]

/-- The accumulation loop of `run_query` (main.rs lines 122-134):
`results` starts empty and one entry is pushed per outcome, in iteration
order. -/
def runQueryLoop : List Outcome → List Json → List Json
  | [], results => results
  | a :: rest, results => runQueryLoop rest (results ++ [outcomeToEntry a])

/-- Embedding of `run_query` (main.rs lines 113-137).  The machine
construction, the `consult_module_string("user", program)` call (whose
result the engine does not report and the code does not inspect) and the
query iterator are opaque engine behavior, so the embedding takes the
engine as a function from the program and query texts to the outcome
sequence the iterator yields.  The declared error type is `String`, as in
`Result<Vec<serde_json::Value>, String>`. -/
def run_query (engine : String → String → List Outcome)
    (program query : String) : Except String (List Json) :=
  Except.ok (runQueryLoop (engine program query) [])

/-- The loop prepends its accumulator to the mapped outcomes. -/
theorem runQueryLoop_eq_map (outcomes : List Outcome) (acc : List Json) :
    runQueryLoop outcomes acc = acc ++ outcomes.map outcomeToEntry := by
  induction outcomes generalizing acc with
  | nil => simp [runQueryLoop]
  | cons a rest ih => simp [runQueryLoop, ih]

/-- Result of `semaphore.acquire_owned().await` (main.rs line 84):
`granted` is a permit, `closed` is the `AcquireError` returned when the
semaphore has been closed. -/
inductive AcquireResult where
  | granted
  | closed

/-- The panic message of `Result::unwrap` applied to the `AcquireError`
case. -/
def acquireUnwrapMsg : String := "called Result::unwrap on an Err value: AcquireError"

/-- What one execution of `handle_query` does from the caller's point of
view: either it produces an HTTP reply (status code and JSON body;
`warp::reply::json` always replies with status 200) or the handler task
panics. -/
inductive HandlerOutcome where
  | reply : Nat → Json → HandlerOutcome
  | panic : String → HandlerOutcome

/-- Result of awaiting `tokio::task::spawn_blocking` (main.rs lines
91-96): the outer `Except` is the join result (its error carries the
rendering of the `JoinError`), the inner one is `run_query`'s return
value. -/
def SpawnResult : Type := Except String (Except String (List Json))

/-- Embedding of `handle_query` (main.rs lines 80-111) as a function of
the acquisition result and the awaited spawn result.  Line 84 unwraps the
acquisition: a closed semaphore panics the handler.  Lines 98-110 match
the spawn result: success serializes `QueryResponse { results }`,
a runner error becomes `json!({ "error": err_msg })`, and a join error
becomes `json!({ "error": format!("Task join error: {join_err}") })`. -/
def handle_query (acq : AcquireResult) (res : SpawnResult) : HandlerOutcome :=
  match acq with
  | .closed => HandlerOutcome.panic acquireUnwrapMsg
  | .granted =>
    match res with
    | .ok (.ok results) => HandlerOutcome.reply 200 (Json.obj [("results", Json.arr results)])
    | .ok (.error errMsg) => HandlerOutcome.reply 200 (mkObj [("error", Json.str errMsg)])
    | .error joinErr =>
        HandlerOutcome.reply 200 (mkObj [("error", Json.str ("Task join error: " ++ joinErr))])

/-- Semaphore-relevant events of one request's lifetime: taking a permit
from the pool, running the evaluation, handing the permit back. -/
inductive PermitEvent where
  | acquire
  | runner
  | release
deriving DecidableEq

/-- The permit-event footprint of one `handle_query` execution whose
acquisition was granted: the permit is acquired on line 84, before the
`spawn_blocking` runner invocation on lines 91-96, and the `_permit`
binding is dropped when the function returns, after the `match` on lines
98-110 — i.e. on the success arm, the runner-error arm and the join-error
arm alike.  The footprint therefore does not depend on the spawn
result. -/
def handleQueryEvents (res : SpawnResult) : List PermitEvent :=
  match res with
  | .ok (.ok _) => [PermitEvent.acquire, PermitEvent.runner, PermitEvent.release]
  | .ok (.error _) => [PermitEvent.acquire, PermitEvent.runner, PermitEvent.release]
  | .error _ => [PermitEvent.acquire, PermitEvent.runner, PermitEvent.release]

/-- Valid interleaved event traces of a semaphore with budget `N`,
indexed by the number of permits outstanding after the trace:
`tokio::sync::Semaphore` grants an acquisition only while fewer than `N`
permits are out, and only an outstanding permit can be released. -/
inductive ValidTrace (N : Nat) : List PermitEvent → Nat → Prop where
  | nil : ValidTrace N [] 0
  | acquire {t k} : ValidTrace N t k → k < N →
      ValidTrace N (t ++ [PermitEvent.acquire]) (k + 1)
  | runner {t k} : ValidTrace N t k →
      ValidTrace N (t ++ [PermitEvent.runner]) k
  | release {t k} : ValidTrace N t (k + 1) →
      ValidTrace N (t ++ [PermitEvent.release]) k

/-- HTTP reply of the health route (main.rs lines 55-57):
`warp::reply::json(&json!({ "status": "ok" }))`, status 200. -/
def health_route : Nat × Json := (200, mkObj [("status", Json.str "ok")])

/-- The health route's permit-event footprint.  The route is built
without the `with_semaphore` filter and its closure never references the
semaphore, so serving a health request emits no permit events. -/
def healthEvents : List PermitEvent := []

/-- C1: for every program/query pair, `run_query` returns exactly one
response entry per outcome the engine's query iterator yields, in exactly
the iterator's order (the entry list is the image of the outcome list
under `outcomeToEntry`, element by element). -/
theorem run_query_entries_match_outcomes :
    ∀ (engine : String → String → List Outcome) (program query : String),
      ∃ entries : List Json,
        run_query engine program query = Except.ok entries ∧
        entries = (engine program query).map outcomeToEntry ∧
        entries.length = (engine program query).length ∧
        ∀ i : Nat, entries[i]? = Option.map outcomeToEntry (engine program query)[i]? := by
  intro engine program query
  refine ⟨(engine program query).map outcomeToEntry, ?_, rfl, List.length_map _ _, ?_⟩
  · simp [run_query, runQueryLoop_eq_map]
  · intro i
    exact List.getElem?_map outcomeToEntry (engine program query) i

/-- C2: `term_to_json` is total — it returns a JSON value for every
constructible `Term`, with no error path, and every variant outside the
eight recognized ones (the `_` arm, modeled by `Term.other`) is mapped to
its textual rendering as a JSON string. -/
theorem term_to_json_total :
    (∀ t : Term, ∃ j : Json, term_to_json t = j) ∧
    (∀ dbg : String, term_to_json (Term.other dbg) = Json.str dbg) :=
  ⟨fun t => ⟨term_to_json t, rfl⟩, fun _ => rfl⟩

/-- C5: the codec maps each recognized variant as specified: integers and
rationals to their decimal string rendering, floats to a JSON number
carrying the same payload, atoms and strings to JSON strings, lists to
arrays of recursively encoded elements in order, compounds to the object
with fields `functor` (the name) and `args` (the recursively encoded
arguments) — serialized in the `BTreeMap`'s ascending key order
`args, functor`, key order being no part of a JSON object's content — and
variables to the object with field `var` (the name). -/
theorem term_to_json_recognized_mapping :
    (∀ i : Int, term_to_json (Term.integer i) = Json.str (toString i)) ∧
    (∀ q : Rat, term_to_json (Term.rational q) = Json.str (toString q)) ∧
    (∀ f : Float, term_to_json (Term.float f) = Json.num f) ∧
    (∀ a : String, term_to_json (Term.atom a) = Json.str a) ∧
    (∀ s : String, term_to_json (Term.string s) = Json.str s) ∧
    (∀ items : List Term,
      term_to_json (Term.list items) = Json.arr (items.map term_to_json)) ∧
    (∀ (name : String) (args : List Term),
      term_to_json (Term.compound name args) =
        Json.obj [("args", Json.arr (args.map term_to_json)), ("functor", Json.str name)]) ∧
    (∀ v : String, term_to_json (Term.var v) = Json.obj [("var", Json.str v)]) := by
  refine ⟨fun i => rfl, fun q => rfl, fun f => rfl, fun a => rfl, fun s => rfl, ?_, ?_, fun v => rfl⟩
  · intro items
    simp [term_to_json, termsToJson_eq_map]
  · intro name args
    simp [term_to_json, mkObj, btreeCollect, insertSorted, termsToJson_eq_map]
    decide

/-- C4: an engine-level per-outcome error in the middle of the outcome
sequence yields one `{ "error": diagnostic }` entry and does not abort
iteration — every outcome after it is still converted and appended. -/
theorem per_outcome_error_does_not_abort :
    ∀ (engine : String → String → List Outcome) (program query : String)
      (pre : List Outcome) (e : String) (suf : List Outcome),
      engine program query = pre ++ Outcome.err e :: suf →
      run_query engine program query =
        Except.ok (pre.map outcomeToEntry ++
          Json.obj [("error", Json.str e)] :: suf.map outcomeToEntry) := by
  intro engine program query pre e suf h
  simp [run_query, runQueryLoop_eq_map, h, outcomeToEntry, mkObj, btreeCollect, insertSorted]

/-- Witness for C4: a three-outcome sequence with an error in the middle
still produces entries for the outcomes before and after it. -/
theorem per_outcome_error_does_not_abort_witness :
    run_query
        (fun _ _ => [Outcome.ok LeafAnswer.isTrue, Outcome.err "boom",
          Outcome.ok LeafAnswer.isFalse]) "p" "q" =
      Except.ok ([Outcome.ok LeafAnswer.isTrue].map outcomeToEntry ++
        Json.obj [("error", Json.str "boom")] ::
          [Outcome.ok LeafAnswer.isFalse].map outcomeToEntry) :=
  per_outcome_error_does_not_abort
    (fun _ _ => [Outcome.ok LeafAnswer.isTrue, Outcome.err "boom",
      Outcome.ok LeafAnswer.isFalse]) "p" "q"
    [Outcome.ok LeafAnswer.isTrue] "boom" [Outcome.ok LeafAnswer.isFalse] rfl

/-- C7: encoding a bound-answer outcome encodes every binding's value
with the term codec, keeps each binding's variable name as the object
key, and keeps the keys in exactly the order the engine's binding map
yields them (the map's keys are strictly ascending, which is the
hypothesis). -/
theorem convert_bindings_preserves_names_and_order :
    ∀ bindings : List (String × Term),
      bindings.Pairwise (fun a b => a.1 < b.1) →
      convert_bindings_to_json bindings =
        Json.obj (bindings.map (fun kv => (kv.1, term_to_json kv.2))) := by
  intro bindings h
  rw [convert_bindings_to_json, btreeCollect_sorted]
  exact List.Pairwise.map _ (fun a b hab => hab) h

/-- Witness for C7: a concrete two-binding map is encoded key-for-key and
value-for-value in order. -/
theorem convert_bindings_preserves_names_and_order_witness :
    convert_bindings_to_json [("X", Term.atom "a"), ("Y", Term.integer 2)] =
      Json.obj ([("X", Term.atom "a"), ("Y", Term.integer 2)].map
        (fun kv => (kv.1, term_to_json kv.2))) :=
  convert_bindings_preserves_names_and_order
    [("X", Term.atom "a"), ("Y", Term.integer 2)]
    (by simp
        decide)

/-- C3: permit discipline of `handle_query`.  (1) In every valid
semaphore trace the number of permits outstanding never exceeds the
budget `N`.  (2) Every `handle_query` execution whose acquisition was
granted has the footprint acquire–runner–release regardless of how the
spawned runner ended — the permit is taken before the runner starts and
is given back on the success, runner-error and join-error paths alike.
(3) Hence extending any valid trace with a complete request (possible
whenever a permit is grantable) returns the pool to exactly the permit
count it had before, so after every request completes all its permits
are back. -/
theorem handle_query_permit_discipline (N : Nat) :
    (∀ (t : List PermitEvent) (k : Nat), ValidTrace N t k → k ≤ N) ∧
    (∀ res : SpawnResult,
      handleQueryEvents res =
        [PermitEvent.acquire, PermitEvent.runner, PermitEvent.release]) ∧
    (∀ (t : List PermitEvent) (k : Nat) (res : SpawnResult),
      ValidTrace N t k → k < N → ValidTrace N (t ++ handleQueryEvents res) k) := by
  refine ⟨?_, ?_, ?_⟩
  · intro t k h
    induction h with
    | nil => exact Nat.zero_le N
    | acquire _ hlt _ => exact hlt
    | runner _ ih => exact ih
    | release _ ih => exact Nat.le_of_succ_le ih
  · intro res
    rcases res with joinErr | inner
    · rfl
    · rcases inner with errMsg | results
      · rfl
      · rfl
  · intro t k res h hk
    have h1 : ValidTrace N ((t ++ [PermitEvent.acquire]) ++ [PermitEvent.runner]) (k + 1) :=
      ValidTrace.runner (ValidTrace.acquire h hk)
    have h2 : ValidTrace N
        (((t ++ [PermitEvent.acquire]) ++ [PermitEvent.runner]) ++ [PermitEvent.release]) k :=
      ValidTrace.release h1
    have hev : handleQueryEvents res =
        [PermitEvent.acquire, PermitEvent.runner, PermitEvent.release] := by
      rcases res with joinErr | inner
      · rfl
      · rcases inner with errMsg | results
        · rfl
        · rfl
    rw [hev]
    simpa [List.append_assoc] using h2

/-- Witness for C3: starting from the empty trace of a budget-2
semaphore, one complete request (here one whose runner returned an empty
result list) leaves the trace valid with 0 permits outstanding again. -/
theorem handle_query_permit_discipline_witness :
    ValidTrace 2 ([] ++ handleQueryEvents (Except.ok (Except.ok []))) 0 :=
  (handle_query_permit_discipline 2).2.2 [] 0 (Except.ok (Except.ok []))
    ValidTrace.nil (by decide)

/-- Counterexample for C6: when acquisition fails because the semaphore
is closed, `handle_query` does not return any reply to the caller — in
particular no service-unavailable reply — because line 84 unwraps the
acquisition result and panics on the `AcquireError`. -/
theorem closed_semaphore_no_reply :
    ¬ ∃ (code : Nat) (body : Json),
        handle_query AcquireResult.closed (Except.ok (Except.ok [])) =
          HandlerOutcome.reply code body := by
  rintro ⟨code, body, h⟩
  simp [handle_query] at h

/-- C6 (amended): when permit acquisition fails because the semaphore is
closed, `handle_query` panics on the `unwrap` of the acquisition error —
terminating that request's handler task — whatever the rest of the
request would have produced; it does not return a service-unavailable
reply and it does not retry. -/
theorem closed_semaphore_panics :
    ∀ res : SpawnResult,
      handle_query AcquireResult.closed res = HandlerOutcome.panic acquireUnwrapMsg :=
  fun _ => rfl

/-- C8: when the spawned blocking task is lost (its join fails, e.g. the
task panicked), `handle_query` still replies — with status 200 and the
body `{ "error": "Task join error: <rendering>" }` — instead of
propagating the crash. -/
theorem join_error_reported_not_propagated :
    ∀ joinErr : String,
      handle_query AcquireResult.granted (Except.error joinErr) =
        HandlerOutcome.reply 200
          (Json.obj [("error", Json.str ("Task join error: " ++ joinErr))]) :=
  fun _ => rfl

/-- C9: a health request is answered 200 with body
`{ "status": "ok" }`, its permit-event footprint is empty — the route is
wired without the semaphore filter — and therefore serving it leaves any
valid semaphore trace valid with the same permits outstanding, even when
all `N` permits are held. -/
theorem health_route_no_permit :
    health_route = (200, Json.obj [("status", Json.str "ok")]) ∧
    healthEvents = [] ∧
    (∀ (N : Nat) (t : List PermitEvent) (k : Nat), ValidTrace N t k →
      ValidTrace N (t ++ healthEvents) k) := by
  refine ⟨rfl, rfl, ?_⟩
  intro N t k h
  simpa [healthEvents] using h

/-- Witness for C9: with a budget-1 semaphore whose single permit is
held, a health request still goes through and leaves that permit
outstanding, the pool unchanged. -/
theorem health_route_no_permit_witness :
    ValidTrace 1 ([PermitEvent.acquire] ++ healthEvents) 1 :=
  health_route_no_permit.2.2 1 [PermitEvent.acquire] 1
    (ValidTrace.acquire ValidTrace.nil Nat.zero_lt_one)

/-- C10: `run_query` never returns its declared `Err` variant — for every
engine behavior and every program and query text (malformed or empty
programs included, the load step reporting nothing) it returns `Ok` with
the accumulated entries — so when the spawned task completes,
`handle_query` serializes a `results` reply, and a top-level `error`
reply can only come from the join-error path. -/
theorem run_query_never_errs :
    ∀ (engine : String → String → List Outcome) (program query : String),
      ∃ entries : List Json,
        run_query engine program query = Except.ok entries ∧
        handle_query AcquireResult.granted (Except.ok (run_query engine program query)) =
          HandlerOutcome.reply 200 (Json.obj [("results", Json.arr entries)]) := by
  intro engine program query
  exact ⟨runQueryLoop (engine program query) [], rfl, rfl⟩
